import Mathlib

/-!
Verification of the `typenum-uuid` crate: a compile-time generator that
turns a 128-bit UUID into a `typenum`-style type-level unsigned integer.

The embedding mirrors `src/lib.rs`:
* `Token`/`Spacing`/`Delim` model `proc_macro::TokenTree` as far as the
  crate inspects it (identifiers, punctuation with spacing, literals and
  delimited groups); a `TokenStream` is a `List Token`.
* `TypenumUint` mirrors the crate's recursive bit representation;
  `TypenumUint.fromU128` is `impl From<u128> for TypenumUint` (u128 values
  are embedded as `Nat` below `2^128`; `>>>`/`&&&` on such a `Nat` agree
  with the wrapping-free u128 operations of the source).
* `TypenumUint.write_ts` is the accumulator-style emitter (the source
  mutates a `TokenStream`; here the accumulator is passed explicitly).
* `split_off_prefix` mirrors the iterator pipeline of the source: Rust's
  `take_while` consumes elements up to and including the first failing
  one, so the remainder collected afterwards is `dropWhile … |>.drop 1`.
* `uuid_new_v4` and `uuid` are the two macro entry points; a panic
  (`assert!`, `unwrap`) is modelled as `Except.error`, and the random
  draw of `Uuid::new_v4` is an injected parameter.
-/

namespace TypenumUuid

/-- Mirror of `proc_macro::Spacing`. -/
inductive Spacing
  | joint
  | alone
deriving DecidableEq

/-- Mirror of `proc_macro::Delimiter`. -/
inductive Delim
  | paren
  | brace
  | bracket
  | noneDelim
deriving DecidableEq

/-- Mirror of `proc_macro::TokenTree`: identifier, punctuation character
with spacing, literal, or delimited group of further trees. -/
inductive Token
  | ident (name : String)
  | punct (c : Char) (s : Spacing)
  | lit (text : String)
  | group (d : Delim) (inner : List Token)

/-- `prefixed_ident` of the source: append `:: id` to the path `pre`.
The source returns an iterator chaining the prefix tokens with the two
colon puncts (joint then alone) and the identifier. -/
def prefixed_ident (pre : List Token) (id : String) : List Token :=
  pre ++ [Token.punct ':' Spacing.joint, Token.punct ':' Spacing.alone, Token.ident id]

/-- Mirror of the crate's `TypenumUint`: LSB-outermost recursive bit list. -/
inductive TypenumUint
  | Lsb (high : TypenumUint) (bit : Bool)
  | Term
deriving DecidableEq

/-- `impl From<u128> for TypenumUint`:
`from(0) = Term`, `from(x) = Lsb(from(x >> 1), (x & 1) != 0)` for `x ≠ 0`. -/
def TypenumUint.fromU128 (x : Nat) : TypenumUint :=
  if h : x = 0 then TypenumUint.Term
  else TypenumUint.Lsb (TypenumUint.fromU128 (x >>> 1)) ((x &&& 1) != 0)
decreasing_by
  rw [Nat.shiftRight_one]
  exact Nat.div_lt_self (Nat.pos_of_ne_zero h) one_lt_two

/-- The integer denoted by a bit list under the LSB-outermost convention:
`Term` denotes 0, `Lsb high bit` denotes `2 * value(high) + bit`. -/
def TypenumUint.decode : TypenumUint → Nat
  | TypenumUint.Term => 0
  | TypenumUint.Lsb high bit => 2 * high.decode + (if bit then 1 else 0)

/-- Number of non-terminal (`Lsb`) nodes of a bit list. -/
def TypenumUint.numBits : TypenumUint → Nat
  | TypenumUint.Term => 0
  | TypenumUint.Lsb high _ => high.numBits + 1

/-- A bit list is minimal when the innermost `Lsb` node (the most
significant materialized bit) carries a one bit: no high-order zero bit
is represented explicitly. -/
def TypenumUint.minimalRep : TypenumUint → Bool
  | TypenumUint.Term => true
  | TypenumUint.Lsb TypenumUint.Term bit => bit
  | TypenumUint.Lsb high@(TypenumUint.Lsb _ _) _ => high.minimalRep

/-- `TypenumUint::write_ts`: write `self` onto the end of the token
stream `ts`, qualifying each emitted name with the path `pre`.
The source mutates `ts` via `extend`; here `ts` is threaded explicitly. -/
def TypenumUint.write_ts : TypenumUint → List Token → List Token → List Token
  | TypenumUint.Term, pre, ts => ts ++ prefixed_ident pre "UTerm"
  | TypenumUint.Lsb high bit, pre, ts =>
    let ts1 := ts ++ prefixed_ident pre "UInt"
    let ts2 := ts1 ++ [Token.punct '<' Spacing.alone]
    let ts3 := high.write_ts pre ts2
    let ts4 := ts3 ++ [Token.punct ',' Spacing.alone]
    let ts5 := ts4 ++ prefixed_ident pre (if bit then "B1" else "B0")
    ts5 ++ [Token.punct '>' Spacing.alone]

/-- `uuid_to_tokenstream`: encode the 128-bit value `u` and write it into
a fresh (empty) token stream. -/
def uuid_to_tokenstream (u : Nat) (pre : List Token) : List Token :=
  (TypenumUint.fromU128 u).write_ts pre []

/-- The predicate of the `take_while` in `split_off_prefix`: `true` for a
token that is NOT a `|` punct (any spacing), `false` for the separator. -/
def notPipe : Token → Bool
  | Token.punct c _ => c != '|'
  | _ => true

/-- `split_off_prefix`: split the argument stream at the first top-level
`|` punct.  Rust's `take_while` on the shared iterator consumes through
the separator, so the collected remainder is everything strictly after
it; an empty remainder is replaced by the default path `::typenum`. -/
def split_off_prefix (args : List Token) : List Token × List Token :=
  let loc := args.takeWhile notPipe
  let rest := (args.dropWhile notPipe).drop 1
  let pre :=
    if rest.isEmpty then
      [Token.punct ':' Spacing.joint, Token.punct ':' Spacing.alone,
       Token.ident "typenum"]
    else rest
  (loc, pre)

/-- `uuid_new_v4` entry point.  `fresh` is the value drawn from the
random source (`Uuid::new_v4().as_u128()`), injected as a parameter; the
`assert!` on a non-empty value segment is modelled as `Except.error`. -/
def uuid_new_v4 (fresh : Nat) (args : List Token) : Except String (List Token) :=
  let s := split_off_prefix args
  if s.1.isEmpty then Except.ok (uuid_to_tokenstream fresh s.2)
  else Except.error "v4 UUIDs take no arguments"

/-- Opening character of a delimiter (`Delimiter::None` prints nothing,
modelled by a marker-free empty list at the call site below). -/
def delimOpen : Delim → List Char
  | Delim.paren => ['(']
  | Delim.brace => ['\x7b']
  | Delim.bracket => ['[']
  | Delim.noneDelim => []

/-- Closing character of a delimiter. -/
def delimClose : Delim → List Char
  | Delim.paren => [')']
  | Delim.brace => ['\x7d']
  | Delim.bracket => [']']
  | Delim.noneDelim => []

mutual
/-- Characters of `TokenTree::to_string`. -/
def tokenChars : Token → List Char
  | Token.ident n => n.data
  | Token.punct c _ => [c]
  | Token.lit s => s.data
  | Token.group d inner => delimOpen d ++ tsChars inner ++ delimClose d

/-- Characters of `TokenStream::to_string`: token texts separated by a
single space.  (`to_string`'s exact whitespace placement is immaterial to
the crate: `uuid` filters out every whitespace character right after.) -/
def tsChars : List Token → List Char
  | [] => []
  | [t] => tokenChars t
  | t :: rest => tokenChars t ++ ' ' :: tsChars rest
end

/-- The whitespace filter of `uuid`:
`args.to_string().chars().filter(|c| !c.is_whitespace())`. -/
def stripWs (cs : List Char) : List Char :=
  cs.filter (fun c => !c.isWhitespace)

/-- Value of a hexadecimal digit, `none` for any other character. -/
def hexVal (c : Char) : Option Nat :=
  if '0' ≤ c ∧ c ≤ '9' then some (c.toNat - '0'.toNat)
  else if 'a' ≤ c ∧ c ≤ 'f' then some (c.toNat - 'a'.toNat + 10)
  else if 'A' ≤ c ∧ c ≤ 'F' then some (c.toNat - 'A'.toNat + 10)
  else none

/-- Big-endian value of a hex-digit string, `none` on any non-hex digit. -/
def hexListVal (cs : List Char) : Option Nat :=
  cs.foldl (fun acc c => acc.bind (fun a => (hexVal c).map (fun v => 16 * a + v)))
    (some 0)

/-- Expect a leading hyphen and return what follows it. -/
def expectHyphen : List Char → Option (List Char)
  | '-' :: rest => some rest
  | _ => none

/-- Remove the four hyphens of the canonical `8-4-4-4-12` layout,
`none` when a hyphen is missing from its position. -/
def dehyphenate (cs : List Char) : Option (List Char) :=
  (expectHyphen (cs.drop 8)).bind fun r1 =>
  (expectHyphen (r1.drop 4)).bind fun r2 =>
  (expectHyphen (r2.drop 4)).bind fun r3 =>
  (expectHyphen (r3.drop 4)).map fun g5 =>
  cs.take 8 ++ (r1.take 4 ++ (r2.take 4 ++ (r3.take 4 ++ g5)))

/-- Modelled from the spec: the external textual-identifier parser
(`Uuid::parse_str` of the `uuid` crate, out of scope of this repository).
Per the spec it accepts the hyphenated canonical form (`8-4-4-4-12` hex
groups), the same form without hyphens (32 hex digits), and the
URN-prefixed form (`urn:uuid:` + canonical), decoding the hex digits to
a 128-bit integer; anything else is a parse error with a diagnostic. -/
def parse_str (cs : List Char) : Except String Nat :=
  let body := if cs.take 9 = "urn:uuid:".data then cs.drop 9 else cs
  if body.length = 32 then
    match hexListVal body with
    | some v => Except.ok v
    | none => Except.error "invalid character"
  else if body.length = 36 then
    match dehyphenate body with
    | some ds =>
      match hexListVal ds with
      | some v => Except.ok v
      | none => Except.error "invalid character"
    | none => Except.error "invalid group layout"
  else Except.error "invalid length"

/-- The string-level core of the `uuid` entry point: strip whitespace,
parse, encode.  The `unwrap` on a parse failure is modelled as
`Except.error`. -/
def uuid_str (cs : List Char) (pre : List Token) : Except String (List Token) :=
  match parse_str (stripWs cs) with
  | Except.ok v => Except.ok (uuid_to_tokenstream v pre)
  | Except.error e => Except.error e

/-- `uuid` entry point: split off the namespace, stringify the value
segment, strip whitespace, parse and encode. -/
def uuid (args : List Token) : Except String (List Token) :=
  let s := split_off_prefix args
  uuid_str (tsChars s.1) s.2

/-! ### Helper lemmas on the encoder -/

/-- Unfolding equation of `fromU128`. -/
theorem fromU128_eq (x : Nat) :
    TypenumUint.fromU128 x =
      if x = 0 then TypenumUint.Term
      else TypenumUint.Lsb (TypenumUint.fromU128 (x >>> 1)) ((x &&& 1) != 0) := by
  by_cases h : x = 0 <;> rw [TypenumUint.fromU128] <;> simp [h]

theorem decode_fromU128 (x : Nat) : (TypenumUint.fromU128 x).decode = x := by
  induction x using Nat.strong_induction_on with
  | _ x ih =>
    by_cases h : x = 0
    · subst h
      rw [fromU128_eq]
      simp [TypenumUint.decode]
    · rw [fromU128_eq]
      simp only [h, if_false]
      rw [TypenumUint.decode]
      rw [ih (x >>> 1)
        (by rw [Nat.shiftRight_one]
            exact Nat.div_lt_self (Nat.pos_of_ne_zero h) one_lt_two)]
      rw [Nat.shiftRight_one, Nat.and_one_is_mod]
      rcases Nat.mod_two_eq_zero_or_one x with h2 | h2 <;> simp [h2] <;> omega

theorem numBits_fromU128_le {n x : Nat} (h : x < 2 ^ n) :
    (TypenumUint.fromU128 x).numBits ≤ n := by
  induction n generalizing x with
  | zero =>
    have hx : x = 0 := by simpa using h
    subst hx
    rw [fromU128_eq]
    simp [TypenumUint.numBits]
  | succ n ih =>
    by_cases h0 : x = 0
    · subst h0
      rw [fromU128_eq]
      simp [TypenumUint.numBits]
    · rw [fromU128_eq]
      simp only [h0, if_false]
      rw [TypenumUint.numBits]
      have hx : x >>> 1 < 2 ^ n := by
        rw [Nat.shiftRight_one, Nat.div_lt_iff_lt_mul (by norm_num : (0:Nat) < 2)]
        calc x < 2 ^ (n + 1) := h
          _ = 2 ^ n * 2 := by rw [pow_succ]
      exact Nat.succ_le_succ (ih hx)

theorem numBits_fromU128_clog :
    ∀ x : Nat, x ≠ 0 →
      (TypenumUint.fromU128 x).numBits = Nat.clog 2 (x + 1) := by
  intro x
  induction x using Nat.strong_induction_on with
  | _ x ih =>
    intro h
    rw [fromU128_eq]
    simp only [h, if_false]
    rw [TypenumUint.numBits]
    have hrec : Nat.clog 2 (x + 1) = Nat.clog 2 (x / 2 + 1) + 1 := by
      rw [Nat.clog_of_two_le (by norm_num) (by omega)]
      congr 2
      omega
    rw [hrec, Nat.shiftRight_one]
    by_cases h2 : x / 2 = 0
    · rw [h2]
      rw [fromU128_eq]
      simp [TypenumUint.numBits, Nat.clog_one_right]
    · rw [ih (x / 2) (Nat.div_lt_self (Nat.pos_of_ne_zero h) one_lt_two) h2]

theorem minimalRep_fromU128 : ∀ x : Nat, (TypenumUint.fromU128 x).minimalRep = true := by
  intro x
  induction x using Nat.strong_induction_on with
  | _ x ih =>
    by_cases h : x = 0
    · subst h
      rw [fromU128_eq]
      simp [TypenumUint.minimalRep]
    · rw [fromU128_eq]
      simp only [h, if_false]
      by_cases h2 : x >>> 1 = 0
      · have hx1 : x = 1 := by
          rw [Nat.shiftRight_one] at h2
          omega
        subst hx1
        simp [fromU128_eq, TypenumUint.minimalRep]
      · cases heq : TypenumUint.fromU128 (x >>> 1) with
        | Term =>
          exact absurd heq (by rw [fromU128_eq]; simp [h2])
        | Lsb hi bi =>
          simp only [TypenumUint.minimalRep]
          rw [← heq]
          exact ih (x >>> 1)
            (by rw [Nat.shiftRight_one]
                exact Nat.div_lt_self (Nat.pos_of_ne_zero h) one_lt_two)

/-! ### Claims C1, C2, C3 -/

/-- C1: the bit encoder is a total function on all 128-bit unsigned
integers, satisfying `encode 0 = Terminator` and, for `x ≠ 0`,
`encode x = Bit (encode (x >>> 1)) ((x &&& 1) != 0)`; its recursion
depth — the number of nested recursive calls, one per emitted `Lsb`
node, counted by `numBits` — is bounded by 128 on 128-bit inputs.
(Totality itself is witnessed by `fromU128` being a total Lean
function.) -/
theorem c1_encoder_total_recursion :
    TypenumUint.fromU128 0 = TypenumUint.Term
    ∧ (∀ x : Nat, x ≠ 0 →
        TypenumUint.fromU128 x =
          TypenumUint.Lsb (TypenumUint.fromU128 (x >>> 1)) ((x &&& 1) != 0))
    ∧ (∀ x : Nat, x < 2 ^ 128 → (TypenumUint.fromU128 x).numBits ≤ 128) := by
  refine ⟨by rw [fromU128_eq]; simp, fun x hx => ?_, fun x hx => numBits_fromU128_le hx⟩
  rw [fromU128_eq]
  simp [hx]

/-- Witness for C1 at `x = 6`. -/
theorem c1_encoder_total_recursion_witness :
    ((6 : Nat) ≠ 0
      ∧ TypenumUint.fromU128 6 =
          TypenumUint.Lsb (TypenumUint.fromU128 (6 >>> 1)) ((6 &&& 1) != 0))
    ∧ ((6 : Nat) < 2 ^ 128 ∧ (TypenumUint.fromU128 6).numBits ≤ 128) :=
  ⟨⟨by norm_num, c1_encoder_total_recursion.2.1 6 (by norm_num)⟩,
   ⟨by norm_num, c1_encoder_total_recursion.2.2 6 (by norm_num)⟩⟩

/-- C2: decoding the encoder's bit list under the LSB-outermost
convention (`Term ↦ 0`, `Lsb high b ↦ 2 * decode high + b`) returns the
input: `decode (encode x) = x` for every 128-bit `x`. -/
theorem c2_decode_encode_roundtrip (x : Nat) (_h : x < 2 ^ 128) :
    (TypenumUint.fromU128 x).decode = x :=
  decode_fromU128 x

/-- Witness for C2 at `x = 42`. -/
theorem c2_decode_encode_roundtrip_witness :
    (42 : Nat) < 2 ^ 128 ∧ (TypenumUint.fromU128 42).decode = 42 :=
  ⟨by norm_num, c2_decode_encode_roundtrip 42 (by norm_num)⟩

/-- C3: for `x > 0` the encoding has exactly `⌈log₂ (x+1)⌉`
(`Nat.clog 2 (x+1)`) non-terminal `Lsb` nodes, for `x = 0` it is exactly
`Term`, and the encoding is minimal: no high-order zero bit is ever
materialized as an explicit zero-bit node (`minimalRep`). -/
theorem c3_minimal_bit_length :
    (∀ x : Nat, x < 2 ^ 128 → 0 < x →
        (TypenumUint.fromU128 x).numBits = Nat.clog 2 (x + 1))
    ∧ TypenumUint.fromU128 0 = TypenumUint.Term
    ∧ (∀ x : Nat, x < 2 ^ 128 → (TypenumUint.fromU128 x).minimalRep = true) :=
  ⟨fun x _ hx => numBits_fromU128_clog x (Nat.pos_iff_ne_zero.mp hx),
   by rw [fromU128_eq]; simp,
   fun x _ => minimalRep_fromU128 x⟩

/-- Witness for C3 at `x = 5`: three bits, minimal. -/
theorem c3_minimal_bit_length_witness :
    ((5 : Nat) < 2 ^ 128 ∧ (0 : Nat) < 5
      ∧ (TypenumUint.fromU128 5).numBits = Nat.clog 2 (5 + 1))
    ∧ ((5 : Nat) < 2 ^ 128 ∧ (TypenumUint.fromU128 5).minimalRep = true) :=
  ⟨⟨by norm_num, by norm_num, c3_minimal_bit_length.1 5 (by norm_num) (by norm_num)⟩,
   ⟨by norm_num, c3_minimal_bit_length.2.2 5 (by norm_num)⟩⟩

/-! ### Helper lemmas on the emitter -/

/-- The accumulator of `write_ts` is only ever appended to: writing onto
`ts` equals `ts` followed by writing onto an empty stream. -/
theorem write_ts_eq (t : TypenumUint) (pre : List Token) :
    ∀ ts : List Token, t.write_ts pre ts = ts ++ t.write_ts pre [] := by
  induction t with
  | Term =>
    intro ts
    simp [TypenumUint.write_ts]
  | Lsb high bit ih =>
    intro ts
    simp only [TypenumUint.write_ts]
    rw [ih (ts ++ prefixed_ident pre "UInt" ++ [Token.punct '<' Spacing.alone]),
        ih ([] ++ prefixed_ident pre "UInt" ++ [Token.punct '<' Spacing.alone])]
    simp

/-- A piece of the emitted output: either the namespace path hole or a
fixed token. -/
inductive Piece
  | nsHole
  | tok (t : Token)

/-- Substitute a concrete namespace path for every hole of a template. -/
def fillNs (ns : List Token) : List Piece → List Token
  | [] => []
  | Piece.nsHole :: rest => ns ++ fillNs ns rest
  | Piece.tok t :: rest => t :: fillNs ns rest

/-- The namespace-independent skeleton of the emitted expression: the
nesting structure, the fixed type names and the punctuation, with a hole
at every qualification point. -/
def TypenumUint.template : TypenumUint → List Piece
  | TypenumUint.Term =>
    [Piece.nsHole, Piece.tok (Token.punct ':' Spacing.joint),
     Piece.tok (Token.punct ':' Spacing.alone), Piece.tok (Token.ident "UTerm")]
  | TypenumUint.Lsb high bit =>
    [Piece.nsHole, Piece.tok (Token.punct ':' Spacing.joint),
     Piece.tok (Token.punct ':' Spacing.alone), Piece.tok (Token.ident "UInt"),
     Piece.tok (Token.punct '<' Spacing.alone)]
    ++ high.template
    ++ [Piece.tok (Token.punct ',' Spacing.alone), Piece.nsHole,
        Piece.tok (Token.punct ':' Spacing.joint),
        Piece.tok (Token.punct ':' Spacing.alone),
        Piece.tok (Token.ident (if bit then "B1" else "B0")),
        Piece.tok (Token.punct '>' Spacing.alone)]

theorem fillNs_append (ns : List Token) (a b : List Piece) :
    fillNs ns (a ++ b) = fillNs ns a ++ fillNs ns b := by
  induction a with
  | nil => simp [fillNs]
  | cons p a ih => cases p <;> simp [fillNs, ih]

theorem write_ts_fillNs (t : TypenumUint) (ns : List Token) :
    t.write_ts ns [] = fillNs ns t.template := by
  induction t with
  | Term => simp [TypenumUint.write_ts, TypenumUint.template, prefixed_ident, fillNs]
  | Lsb high bit ih =>
    simp only [TypenumUint.write_ts, TypenumUint.template]
    rw [write_ts_eq, fillNs_append, fillNs_append, ih]
    simp [prefixed_ident, fillNs]

/-! ### Claims C4, C9 -/

/-- C4: the emitter satisfies
`emit Term ns = ns :: UTerm` and
`emit (Bit high b) ns = ns :: UInt < emit high ns , ns :: (b ? B1 : B0) >`,
with the namespace path `ns` prepended independently at every
qualification point of every nesting level, never hoisted.  The `::` is
a joint `:` punct followed by an alone `:` punct; `<`, `,`, `>` are
alone puncts. -/
theorem c4_emitter_shape (pre : List Token) :
    TypenumUint.Term.write_ts pre []
      = pre ++ [Token.punct ':' Spacing.joint, Token.punct ':' Spacing.alone,
          Token.ident "UTerm"]
    ∧ (∀ (high : TypenumUint) (bit : Bool),
        (TypenumUint.Lsb high bit).write_ts pre []
          = (pre ++ [Token.punct ':' Spacing.joint, Token.punct ':' Spacing.alone,
              Token.ident "UInt"])
            ++ [Token.punct '<' Spacing.alone]
            ++ high.write_ts pre []
            ++ [Token.punct ',' Spacing.alone]
            ++ (pre ++ [Token.punct ':' Spacing.joint, Token.punct ':' Spacing.alone,
                Token.ident (if bit then "B1" else "B0")])
            ++ [Token.punct '>' Spacing.alone]) := by
  constructor
  · simp [TypenumUint.write_ts, prefixed_ident]
  · intro high bit
    simp only [TypenumUint.write_ts]
    rw [write_ts_eq]
    simp [prefixed_ident]

/-- C9: changing the namespace path changes every qualification point of
the emitted expression and nothing else: for every bit list `t`, the
output under any namespace `ns` is the fixed, namespace-independent
skeleton `t.template` (nesting structure, `UTerm`/`UInt`/`B0`/`B1` names
and punctuation) with `ns` substituted verbatim at every hole.  Hence
the outputs under `ns1` and `ns2` differ exactly by replacing `ns1` with
`ns2` at the qualification points. -/
theorem c9_namespace_frame (t : TypenumUint) (ns1 ns2 : List Token) :
    t.write_ts ns1 [] = fillNs ns1 t.template
    ∧ t.write_ts ns2 [] = fillNs ns2 t.template :=
  ⟨write_ts_fillNs t ns1, write_ts_fillNs t ns2⟩

/-! ### Helper lemmas on the argument splitter -/

theorem takeWhile_notPipe_all {v : List Token} (h : ∀ t ∈ v, notPipe t = true) :
    v.takeWhile notPipe = v := by
  induction v with
  | nil => rfl
  | cons a v ih =>
    rw [List.takeWhile_cons, if_pos (h a (by simp))]
    rw [ih (fun t ht => h t (by simp [ht]))]

theorem dropWhile_notPipe_all {v : List Token} (h : ∀ t ∈ v, notPipe t = true) :
    v.dropWhile notPipe = [] := by
  induction v with
  | nil => rfl
  | cons a v ih =>
    rw [List.dropWhile_cons, if_pos (h a (by simp))]
    exact ih (fun t ht => h t (by simp [ht]))

theorem takeWhile_notPipe_append {v : List Token} (n : List Token) {p : Token}
    (h : ∀ t ∈ v, notPipe t = true) (hp : notPipe p = false) :
    (v ++ p :: n).takeWhile notPipe = v := by
  induction v with
  | nil => simp [List.takeWhile_cons, hp]
  | cons a v ih =>
    rw [List.cons_append, List.takeWhile_cons, if_pos (h a (by simp))]
    rw [ih (fun t ht => h t (by simp [ht]))]

theorem dropWhile_notPipe_append {v : List Token} (n : List Token) {p : Token}
    (h : ∀ t ∈ v, notPipe t = true) (hp : notPipe p = false) :
    (v ++ p :: n).dropWhile notPipe = p :: n := by
  induction v with
  | nil => simp [List.dropWhile_cons, hp]
  | cons a v ih =>
    rw [List.cons_append, List.dropWhile_cons, if_pos (h a (by simp))]
    exact ih (fun t ht => h t (by simp [ht]))

/-! ### Claims C5, C10, C6 -/

/-- C5: the splitter returns as value segment all top-level tokens
strictly before the first top-level `|` punct and as namespace segment
all tokens strictly after it (the separator lands in neither); with no
separator the value segment is the whole input; an empty namespace
segment is replaced by the default path `::typenum`. -/
theorem c5_split_at_pipe :
    (∀ (v n : List Token) (sp : Spacing), (∀ t ∈ v, notPipe t = true) →
      split_off_prefix (v ++ Token.punct '|' sp :: n)
        = (v, if n.isEmpty then
            [Token.punct ':' Spacing.joint, Token.punct ':' Spacing.alone,
             Token.ident "typenum"]
          else n))
    ∧ (∀ v : List Token, (∀ t ∈ v, notPipe t = true) →
      split_off_prefix v
        = (v, [Token.punct ':' Spacing.joint, Token.punct ':' Spacing.alone,
            Token.ident "typenum"])) := by
  constructor
  · intro v n sp h
    have hp : notPipe (Token.punct '|' sp) = false := by simp [notPipe]
    rw [ split_off_prefix, takeWhile_notPipe_append n h hp,
      dropWhile_notPipe_append n h hp]
    simp
  · intro v h
    rw [ split_off_prefix, takeWhile_notPipe_all h, dropWhile_notPipe_all h]
    simp

/-- Witness for C5: `a | t` splits into value `a`, namespace `t`; a bare
`a` keeps the whole input as value segment and defaults the namespace. -/
theorem c5_split_at_pipe_witness :
    split_off_prefix [Token.ident "a", Token.punct '|' Spacing.alone, Token.ident "t"]
      = ([Token.ident "a"], [Token.ident "t"])
    ∧ split_off_prefix [Token.ident "a"]
      = ([Token.ident "a"],
         [Token.punct ':' Spacing.joint, Token.punct ':' Spacing.alone,
          Token.ident "typenum"]) := by
  constructor
  · have h := c5_split_at_pipe.1 [Token.ident "a"] [Token.ident "t"] Spacing.alone
      (by intro t ht; simp at ht; subst ht; rfl)
    simpa using h
  · exact c5_split_at_pipe.2 [Token.ident "a"]
      (by intro t ht; simp at ht; subst ht; rfl)

/-- C10: whenever no namespace override is supplied — no `|` separator
at all, or nothing after it — the namespace segment used at every
qualification point is exactly the three tokens
`:` (joint), `:` (alone), `typenum`, i.e. the absolute path
`::typenum`. -/
theorem c10_default_namespace :
    (∀ args : List Token, (∀ t ∈ args, notPipe t = true) →
      ( split_off_prefix args).2
        = [Token.punct ':' Spacing.joint, Token.punct ':' Spacing.alone,
           Token.ident "typenum"])
    ∧ (∀ (v : List Token) (sp : Spacing), (∀ t ∈ v, notPipe t = true) →
      ( split_off_prefix (v ++ [Token.punct '|' sp])).2
        = [Token.punct ':' Spacing.joint, Token.punct ':' Spacing.alone,
           Token.ident "typenum"]) := by
  constructor
  · intro args h
    rw [ split_off_prefix, dropWhile_notPipe_all h]
    simp
  · intro v sp h
    have hp : notPipe (Token.punct '|' sp) = false := by simp [notPipe]
    rw [ split_off_prefix, dropWhile_notPipe_append [] h hp]
    simp

/-- Witness for C10: no separator, and a trailing bare separator, both
yield the default `::typenum` path. -/
theorem c10_default_namespace_witness :
    ( split_off_prefix [Token.ident "a"]).2
      = [Token.punct ':' Spacing.joint, Token.punct ':' Spacing.alone,
         Token.ident "typenum"]
    ∧ ( split_off_prefix [Token.punct '|' Spacing.alone]).2
      = [Token.punct ':' Spacing.joint, Token.punct ':' Spacing.alone,
         Token.ident "typenum"] := by
  constructor
  · exact c10_default_namespace.1 [Token.ident "a"]
      (by intro t ht; simp at ht; subst ht; rfl)
  · exact c10_default_namespace.2 [] Spacing.alone (by intro t ht; simp at ht)

/-- C6: the fresh-value generator fails with the argument-count error
(and emits nothing) whenever the value segment — the tokens before any
`|` — is non-empty, and succeeds with the type expression for the one
freshly drawn 128-bit value when the value segment is empty. -/
theorem c6_fresh_value_arity (fresh : Nat) (args : List Token) :
    (( split_off_prefix args).1 ≠ [] →
      uuid_new_v4 fresh args = Except.error "v4 UUIDs take no arguments")
    ∧ (( split_off_prefix args).1 = [] →
      uuid_new_v4 fresh args
        = Except.ok (uuid_to_tokenstream fresh ( split_off_prefix args).2)) := by
  constructor
  · intro h
    rw [uuid_new_v4, if_neg (by simpa [List.isEmpty_iff] using h)]
  · intro h
    rw [uuid_new_v4, if_pos (by simpa [List.isEmpty_iff] using h)]

/-- Witness for C6: one stray argument token is rejected; an empty
invocation succeeds with the encoded fresh value. -/
theorem c6_fresh_value_arity_witness :
    uuid_new_v4 5 [Token.ident "x"] = Except.error "v4 UUIDs take no arguments"
    ∧ uuid_new_v4 5 []
      = Except.ok (uuid_to_tokenstream 5
          [Token.punct ':' Spacing.joint, Token.punct ':' Spacing.alone,
           Token.ident "typenum"]) := by
  constructor
  · exact (c6_fresh_value_arity 5 [Token.ident "x"]).1
      (by simp [ split_off_prefix, notPipe])
  · exact (c6_fresh_value_arity 5 []).2 rfl

/-! ### Helper lemmas on the literal generator -/

theorem stripWs_stripWs (cs : List Char) : stripWs (stripWs cs) = stripWs cs := by
  simp [stripWs, List.filter_filter]

theorem dehyphenate_canonical {g1 g2 g3 g4 g5 : List Char}
    (h1 : g1.length = 8) (h2 : g2.length = 4) (h3 : g3.length = 4)
    (h4 : g4.length = 4) :
    dehyphenate (g1 ++ ('-' :: (g2 ++ ('-' :: (g3 ++ ('-' :: (g4 ++ ('-' :: g5))))))))
      = some (g1 ++ (g2 ++ (g3 ++ (g4 ++ g5)))) := by
  simp only [dehyphenate, List.drop_left' h1, List.drop_left' h2, List.drop_left' h3,
    List.drop_left' h4, List.take_left' h1, List.take_left' h2, List.take_left' h3,
    List.take_left' h4, expectHyphen, Option.some_bind, Option.map_some']

/-- If some position below 9 disagrees with `urn:uuid:`, the first nine
characters are not that prefix. -/
theorem take9_ne_urn {cs : List Char} {i : Nat} (hi : i < 9)
    (h : cs[i]? ≠ ("urn:uuid:".data)[i]?) : cs.take 9 ≠ "urn:uuid:".data := by
  intro hEq
  apply h
  have ht := List.getElem?_take (l := cs) (n := 9) (m := i)
  rw [if_pos hi] at ht
  rw [← ht, hEq]

theorem hex_ne_colon {c : Char} (h : (hexVal c).isSome) : c ≠ ':' := by
  intro hc
  subst hc
  rw [show hexVal ':' = none from by decide] at h
  simp at h

/-- A string starting with eight hex digits does not carry the URN
prefix (its fourth character cannot be `:`). -/
theorem plain_ne_urn {g1 rest : List Char} (h1 : g1.length = 8)
    (hhex : ∀ c ∈ g1, (hexVal c).isSome) :
    (g1 ++ rest).take 9 ≠ "urn:uuid:".data := by
  apply take9_ne_urn (by norm_num : (3 : Nat) < 9)
  have h3 : 3 < g1.length := by omega
  rw [List.getElem?_append, if_pos h3, List.getElem?_eq_getElem h3]
  rw [show ("urn:uuid:".data)[3]? = some ':' from by decide]
  have := hex_ne_colon (hhex (g1[3]) (List.getElem_mem h3))
  simp [this]

/-- A hyphenated string whose first group has eight characters does not
carry the URN prefix (its ninth character is `-`, not `:`). -/
theorem hyph_ne_urn {g1 rest : List Char} (h1 : g1.length = 8) :
    (g1 ++ ('-' :: rest)).take 9 ≠ "urn:uuid:".data := by
  apply take9_ne_urn (by norm_num : (8 : Nat) < 9)
  rw [List.getElem?_append_right (by omega), h1]
  rw [show (8 - 8 : Nat) = 0 from rfl, List.getElem?_cons_zero]
  rw [show ("urn:uuid:".data)[8]? = some ':' from by decide]
  simp

/-- Stripping the `urn:uuid:` prefix reduces parsing to the suffix,
provided the suffix does not itself start with the prefix. -/
theorem parse_str_urn {cs : List Char} (h : cs.take 9 ≠ "urn:uuid:".data) :
    parse_str ("urn:uuid:".data ++ cs) = parse_str cs := by
  simp only [parse_str]
  rw [List.take_left' (by decide : ("urn:uuid:".data).length = 9),
    List.drop_left' (by decide : ("urn:uuid:".data).length = 9),
    if_pos rfl, if_neg h]

/-- Body of `parse_str` when the URN prefix is absent. -/
theorem parse_str_not_urn {cs : List Char} (h : cs.take 9 ≠ "urn:uuid:".data) :
    parse_str cs =
      if cs.length = 32 then
        match hexListVal cs with
        | some v => Except.ok v
        | none => Except.error "invalid character"
      else if cs.length = 36 then
        match dehyphenate cs with
        | some ds =>
          (match hexListVal ds with
           | some v => Except.ok v
           | none => Except.error "invalid character")
        | none => Except.error "invalid group layout"
      else Except.error "invalid length" := by
  simp only [parse_str]
  rw [if_neg h]

/-! ### Claims C7, C8 -/

/-- C7: the literal generator strips all whitespace from the value
segment before parsing (first conjunct: parsing is invariant under a
prior strip, because the strip is idempotent), and it is deterministic
(it is a pure function) and surface-form-insensitive: the hyphenated,
unhyphenated and URN-prefixed forms of the same identifier parse to the
same 128-bit integer (second conjunct), and equal parse results give
identical emitted type expressions for a fixed namespace (third
conjunct). -/
theorem c7_literal_surface_forms :
    (∀ (cs : List Char) (pre : List Token),
      uuid_str cs pre = uuid_str (stripWs cs) pre)
    ∧ (∀ g1 g2 g3 g4 g5 : List Char,
        g1.length = 8 → g2.length = 4 → g3.length = 4 → g4.length = 4 →
        g5.length = 12 → (∀ c ∈ g1, (hexVal c).isSome) →
        parse_str (g1 ++ ('-' :: (g2 ++ ('-' :: (g3 ++ ('-' :: (g4 ++ ('-' :: g5))))))))
            = parse_str (g1 ++ (g2 ++ (g3 ++ (g4 ++ g5))))
          ∧ parse_str ("urn:uuid:".data
                ++ (g1 ++ ('-' :: (g2 ++ ('-' :: (g3 ++ ('-' :: (g4 ++ ('-' :: g5)))))))))
            = parse_str (g1 ++ (g2 ++ (g3 ++ (g4 ++ g5)))))
    ∧ (∀ (cs1 cs2 : List Char) (pre : List Token),
        parse_str (stripWs cs1) = parse_str (stripWs cs2) →
        uuid_str cs1 pre = uuid_str cs2 pre) := by
  refine ⟨fun cs pre => ?_, fun g1 g2 g3 g4 g5 h1 h2 h3 h4 h5 hhex => ?_,
    fun cs1 cs2 pre h => ?_⟩
  · rw [uuid_str, uuid_str, stripWs_stripWs]
  · have hplain := @plain_ne_urn g1 (g2 ++ (g3 ++ (g4 ++ g5))) h1 hhex
    have hhyph :=
      @hyph_ne_urn g1 (g2 ++ ('-' :: (g3 ++ ('-' :: (g4 ++ ('-' :: g5)))))) h1
    have key :
        parse_str (g1 ++ ('-' :: (g2 ++ ('-' :: (g3 ++ ('-' :: (g4 ++ ('-' :: g5))))))))
          = parse_str (g1 ++ (g2 ++ (g3 ++ (g4 ++ g5)))) := by
      rw [parse_str_not_urn hhyph, parse_str_not_urn hplain]
      have hl36 :
          (g1 ++ ('-' :: (g2 ++ ('-' :: (g3 ++ ('-' :: (g4 ++ ('-' :: g5)))))))).length
            = 36 := by
        simp [h1, h2, h3, h4, h5]
      have hl32 : (g1 ++ (g2 ++ (g3 ++ (g4 ++ g5)))).length = 32 := by
        simp [h1, h2, h3, h4, h5]
      rw [if_neg (by omega), if_pos hl36, if_pos hl32,
        dehyphenate_canonical h1 h2 h3 h4]
    exact ⟨key, by rw [parse_str_urn hhyph, key]⟩
  · rw [uuid_str, uuid_str, h]

/-- Witness for C7 on the spec's example identifier
`a65ff38d-b5b2-48d0-b03a-bdf468523d2e`. -/
theorem c7_literal_surface_forms_witness :
    ("a65ff38d".data.length = 8 ∧ (∀ c ∈ "a65ff38d".data, (hexVal c).isSome))
    ∧ parse_str ("a65ff38d".data ++ ('-' :: ("b5b2".data ++ ('-' :: ("48d0".data
          ++ ('-' :: ("b03a".data ++ ('-' :: "bdf468523d2e".data))))))))
        = parse_str ("a65ff38d".data ++ ("b5b2".data ++ ("48d0".data
          ++ ("b03a".data ++ "bdf468523d2e".data))))
    ∧ uuid_str " 0".data [] = uuid_str "0 ".data [] := by
  refine ⟨⟨by decide, by decide⟩, ?_, ?_⟩
  · exact (c7_literal_surface_forms.2.1 "a65ff38d".data "b5b2".data "48d0".data
      "b03a".data "bdf468523d2e".data (by decide) (by decide) (by decide)
      (by decide) (by decide) (by decide)).1
  · exact c7_literal_surface_forms.2.2 " 0".data "0 ".data [] rfl

/-- C8: whenever the whitespace-stripped value segment is not a
recognized identifier form — the parser reports an error — the literal
generator fails with that compile-time error and emits no output tokens
(the `Except.error` result carries no token stream, so there is no
partial value, default, or best-effort result). -/
theorem c8_literal_parse_error (args : List Token) (e : String)
    (h : parse_str (stripWs (tsChars ( split_off_prefix args).1)) = Except.error e) :
    uuid args = Except.error e := by
  simp only [uuid, uuid_str, h]

/-- Witness for C8: a malformed literal (`zz`) makes `uuid` fail with
the parser's error. -/
theorem c8_literal_parse_error_witness :
    parse_str (stripWs (tsChars ( split_off_prefix [Token.lit "zz"]).1))
        = Except.error "invalid length"
    ∧ uuid [Token.lit "zz"] = Except.error "invalid length" :=
  ⟨rfl, c8_literal_parse_error [Token.lit "zz"] "invalid length" rfl⟩

end TypenumUuid
